import Mathlib

/-!
Verification of the `welld` repository: a shallow embedding of the
memory store (`src/tools/user_memory_mcp_server.py`), the schedule store
(`src/tools/user_schedule_mcp_server.py`) and the MCP capability
connector (`src/tools/utils/mcp_connect.py`), with theorems settling the
specification claims about them.

Modelling choices:
* Python strings are Lean `String`; the Python operations `str.lower`,
  `needle in hay`, `s[:8]` and `<=` on strings are re-implemented on the
  underlying character lists (`pyLower`, `strContains`, `pyTake`,
  `strLe`) so that the kernel can evaluate them on concrete inputs.
* Python `float` relevance scores are sums of the increments 0.5, 0.8
  and 1.0; they are modelled exactly as natural numbers counting tenths
  of a point (5, 8, 10), which is exact for every value the code can
  produce and order-isomorphic to the float values at the gaps involved.
* JSON records are structures whose optional fields are `Option`-valued;
  the backing file is modelled as the list of dumped records.
* The wall clock (`datetime.now`) is an explicit argument.
-/

namespace Welld

/-- The predefined memory tag values (`MemoryTag` enum,
`user_memory_mcp_server.py` lines 12-26). -/
def memoryTagValues : List String :=
  ["hobby", "personality", "habit", "health", "learning", "relationship",
   "goal", "emotion", "location", "time", "preference"]

/-- The priority values (`MemoryPriority` / `SchedulePriority` enums). -/
def priorityValues : List String := ["high", "mid", "low"]

/-- Python `str.lower` (character-wise lowering; agrees with the Python
behaviour on the ASCII data this code handles). -/
def pyLower (s : String) : String := ⟨s.data.map Char.toLower⟩

/-- Python `needle in hay` on lists of characters: some suffix of `hay`
starts with `needle`. -/
def containsSublist (needle : List Char) : List Char → Bool
  | [] => needle.isEmpty
  | c :: rest => needle.isPrefixOf (c :: rest) || containsSublist needle rest

/-- Python substring test `needle in hay` on strings. -/
def strContains (hay needle : String) : Bool :=
  containsSublist needle.data hay.data

/-- Python `s[:n]` on strings. -/
def pyTake (s : String) (n : Nat) : String := ⟨s.data.take n⟩

/-- Lexicographic comparison of character lists by code point, the
comparison Python uses for `<=` on `str`. -/
def charListLe : List Char → List Char → Bool
  | [], _ => true
  | _ :: _, [] => false
  | a :: as, b :: bs => if a = b then charListLe as bs else decide (a < b)

/-- Python `a <= b` on strings. -/
def strLe (a b : String) : Bool := charListLe a.data b.data

/-- `strLe` as a relation, used for sorting keys the way Python
`list.sort()` sorts strings. -/
def strLeP (a b : String) : Prop := strLe a b = true

instance : DecidableRel strLeP := fun a b =>
  inferInstanceAs (Decidable (strLe a b = true))

/-- `MemoryEntry` (pydantic model, `user_memory_mcp_server.py`
lines 37-45). -/
structure MemoryEntry where
  key : String
  tags : List String
  content : String
  priority : String
  created_at : String
  updated_at : String
deriving Repr, DecidableEq

/-- `MemorySearchResult` (lines 48-55); `relevance_score` is in tenths
of a point. -/
structure MemorySearchResult where
  key : String
  tags : List String
  content : String
  priority : String
  relevance_score : Nat
deriving Repr, DecidableEq

/-- The relevance score `MemoryManager.search_memories` computes for one
memory (lines 130-146), in tenths of a point: `tag_matches * 0.5` when a
non-empty tag filter is given and hits at least one tag, `+ 1.0` when
the lowered query occurs in the lowered content, and `+ 0.8` for every
memory tag whose lowered text contains the lowered query (the Python
`for tag in memory.tags` loop, rendered as counting the matching
tags). -/
def scoreMemory (query : String) (tags : Option (List String)) (m : MemoryEntry) : Nat :=
  let tagFilterScore : Nat :=
    match tags with
    | none => 0
    | some ts =>
      if ts.isEmpty then 0
      else
        let tagMatches := (ts.filter (fun t => m.tags.contains t)).length
        if 0 < tagMatches then tagMatches * 5 else 0
  let contentScore : Nat :=
    if strContains (pyLower m.content) (pyLower query) then 10 else 0
  let tagScore : Nat :=
    (m.tags.filter (fun t => strContains (pyLower t) (pyLower query))).length * 8
  tagFilterScore + contentScore + tagScore

/-- The search result record built for a memory and its score (lines
149-157). -/
def mkResult (m : MemoryEntry) (sc : Nat) : MemorySearchResult :=
  { key := m.key, tags := m.tags, content := m.content,
    priority := m.priority, relevance_score := sc }

/-- The `results` list `search_memories` accumulates (lines 128-157):
the memories with positive relevance score, in store order. -/
def searchCandidates (memories : List MemoryEntry) (query : String)
    (tags : Option (List String)) : List MemorySearchResult :=
  memories.filterMap (fun m =>
    let sc := scoreMemory query tags m
    if 0 < sc then some (mkResult m sc) else none)

/-- `MemoryManager.search_memories` (lines 126-161): collect the
candidates, then sort by score, descending and stable (Python
`list.sort(key=..., reverse=True)` is a stable sort). -/
def searchMemories (memories : List MemoryEntry) (query : String)
    (tags : Option (List String)) : List MemorySearchResult :=
  (searchCandidates memories query tags).insertionSort
    (fun a b => b.relevance_score ≤ a.relevance_score)

/-- A raw JSON record of the memory file: what `model_dump` writes and
`_load_memories` reads.  `priority` is optional because old files may
lack it (lines 76-78). -/
structure RawMemoryItem where
  key : String
  tags : List String
  content : String
  priority : Option String
  created_at : String
  updated_at : String
deriving Repr, DecidableEq

/-- `memory.model_dump()`: every field is present in the dump. -/
def dumpMemory (m : MemoryEntry) : RawMemoryItem :=
  { key := m.key, tags := m.tags, content := m.content,
    priority := some m.priority, created_at := m.created_at,
    updated_at := m.updated_at }

/-- `MemoryManager._save_memories` (lines 89-93): the file contents
after a save is the list of dumped entries. -/
def saveMemories (ms : List MemoryEntry) : List RawMemoryItem :=
  ms.map dumpMemory

/-- One step of `MemoryManager._load_memories` (lines 75-83): default a
missing `priority` to `"mid"`, then build the entry.  `MemoryEntry` puts
no constraint beyond field presence and types, so a structurally
well-formed record never hits the `except` branch; in particular tags
are taken as stored, whether or not they belong to `memoryTagValues`. -/
def loadMemoryItem (it : RawMemoryItem) : MemoryEntry :=
  { key := it.key, tags := it.tags, content := it.content,
    priority := it.priority.getD "mid", created_at := it.created_at,
    updated_at := it.updated_at }

/-- `MemoryManager._load_memories` over a parsed file. -/
def loadMemories (items : List RawMemoryItem) : List MemoryEntry :=
  items.map loadMemoryItem

/-- The `MemoryManager` state: the in-memory list and the persisted
file contents. -/
structure MemoryStore where
  memories : List MemoryEntry
  file : List RawMemoryItem
deriving Repr, DecidableEq

/-- `MemoryManager.add_memory` (lines 95-101): append the new entry and
save. -/
def addMemory (st : MemoryStore) (key : String) (tags : List String)
    (content priority now : String) : MemoryStore × MemoryEntry :=
  let m : MemoryEntry :=
    { key := key, tags := tags, content := content, priority := priority,
      created_at := now, updated_at := now }
  let ms := st.memories ++ [m]
  (⟨ms, saveMemories ms⟩, m)

/-- The in-place update of the first entry with the given key performed
by the loop of `MemoryManager.update_memory` (lines 108-116). -/
def updateFirst (key : String) (tags : List String) (content : String)
    (priority : Option String) (now : String) :
    List MemoryEntry → List MemoryEntry × Option MemoryEntry
  | [] => ([], none)
  | m :: rest =>
    if m.key = key then
      let m2 : MemoryEntry :=
        { m with tags := tags, content := content,
                 priority := priority.getD m.priority, updated_at := now }
      (m2 :: rest, some m2)
    else
      let (rest2, r) := updateFirst key tags content priority now rest
      (m :: rest2, r)

/-- `MemoryManager.update_memory` (lines 103-117): update the first
entry with the key and save; if no entry has the key, return `None`
without touching the store or the file. -/
def updateMemory (st : MemoryStore) (key : String) (tags : List String)
    (content : String) (priority : Option String) (now : String) :
    MemoryStore × Option MemoryEntry :=
  match updateFirst key tags content priority now st.memories with
  | (ms, some m) => (⟨ms, saveMemories ms⟩, some m)
  | (_, none) => (st, none)

/-- Removal of the first entry with the given key, as done by the loop
of `MemoryManager.delete_memory` (lines 169-173). -/
def removeFirst (key : String) : List MemoryEntry → List MemoryEntry × Bool
  | [] => ([], false)
  | m :: rest =>
    if m.key = key then (rest, true)
    else
      let (rest2, b) := removeFirst key rest
      (m :: rest2, b)

/-- `MemoryManager.delete_memory` (lines 167-174): delete the first
entry with the key and save, returning `true`; return `false` without
saving when no entry matches. -/
def deleteMemory (st : MemoryStore) (key : String) : MemoryStore × Bool :=
  let (ms, found) := removeFirst key st.memories
  if found then (⟨ms, saveMemories ms⟩, true) else (st, false)

/-- The key format check of the `add_memory` tool (line 233):
`len(key) == 14 and key.isdigit()`. -/
def isValidMemoryKey (key : String) : Bool :=
  key.data.length = 14 && key.data.all Char.isDigit

/-- Result record of a tool call: the `success` flag and message of the
returned dictionary. -/
structure ToolResult where
  success : Bool
  message : String
deriving Repr, DecidableEq

/-- The `add_memory` MCP tool (lines 231-248): validate the key format,
the tags and the priority, then call `MemoryManager.add_memory`.  No
check for an already-present key is made. -/
def addMemoryTool (st : MemoryStore) (key : String) (tags : List String)
    (content priority now : String) : MemoryStore × ToolResult :=
  if ¬ isValidMemoryKey key then
    (st, ⟨false, "invalid key format"⟩)
  else if ¬ (tags.filter (fun t => ¬ memoryTagValues.contains t)).isEmpty then
    (st, ⟨false, "invalid tags"⟩)
  else if ¬ priorityValues.contains priority then
    (st, ⟨false, "invalid priority"⟩)
  else
    let (st2, _) := addMemory st key tags content priority now
    (st2, ⟨true, "memory added"⟩)

/-- One step of the tag histogram of `get_memory_stats` (line 581):
`tag_counts[tag] = tag_counts.get(tag, 0) + 1` on an insertion-ordered
dictionary, modelled as an association list. -/
def bumpTag (counts : List (String × Nat)) (t : String) : List (String × Nat) :=
  match counts with
  | [] => [(t, 1)]
  | (s, n) :: rest =>
    if s = t then (s, n + 1) :: rest else (s, n) :: bumpTag rest t

/-- The tag histogram of `get_memory_stats` (lines 578-581). -/
def tagCounts (ms : List MemoryEntry) : List (String × Nat) :=
  ms.foldl (fun acc m => m.tags.foldl bumpTag acc) []

/-- `keys.sort()` (line 585): Python's stable ascending sort on the key
strings. -/
def sortedKeys (ms : List MemoryEntry) : List String :=
  (ms.map MemoryEntry.key).insertionSort strLeP

/-- The `stats` dictionary of `get_memory_stats` (lines 587-595). -/
structure MemoryStats where
  total_memories : Nat
  earliest : Option String
  latest : Option String
  tag_counts : List (String × Nat)
  most_used_tags : List (String × Nat)
deriving Repr, DecidableEq

/-- `get_memory_stats` (lines 574-595): total count over all entries,
`keys[0]`/`keys[-1]` of the sorted key list (`None` on an empty store),
the tag histogram, and the top five tags by count (stable descending
sort, then `[:5]`). -/
def getMemoryStats (ms : List MemoryEntry) : MemoryStats :=
  let keys := sortedKeys ms
  { total_memories := ms.length,
    earliest := keys.head?,
    latest := keys.getLast?,
    tag_counts := tagCounts ms,
    most_used_tags :=
      ((tagCounts ms).insertionSort (fun a b => b.2 ≤ a.2)).take 5 }

/-- `ScheduleEntry` (pydantic model, `user_schedule_mcp_server.py`
lines 25-32). -/
structure ScheduleEntry where
  deadline : String
  content : String
  priority : String
  created_at : String
  updated_at : String
deriving Repr, DecidableEq

/-- `ScheduleSearchResult` (lines 35-43). -/
structure ScheduleSearchResult where
  schedule_id : String
  deadline : String
  content : String
  priority : String
  created_at : String
  updated_at : String
deriving Repr, DecidableEq

/-- The result record built from a keyed schedule entry (lines
130-138). -/
def toScheduleResult (p : String × ScheduleEntry) : ScheduleSearchResult :=
  { schedule_id := p.1, deadline := p.2.deadline, content := p.2.content,
    priority := p.2.priority, created_at := p.2.created_at,
    updated_at := p.2.updated_at }

/-- A calendar date, used to model the `datetime.date` part of the
values `ScheduleManager.search_schedules` manipulates. -/
structure Date where
  year : Nat
  month : Nat
  day : Nat
deriving Repr, DecidableEq

/-- Gregorian leap-year rule, as in `datetime`. -/
def isLeapYear (y : Nat) : Bool :=
  (y % 4 = 0 && y % 100 ≠ 0) || y % 400 = 0

/-- Days in a month of the Gregorian calendar, as in `datetime`. -/
def daysInMonth (y m : Nat) : Nat :=
  if m = 2 then (if isLeapYear y then 29 else 28)
  else if m = 4 || m = 6 || m = 9 || m = 11 then 30
  else 31

/-- The successor day (`+ timedelta(days=1)`). -/
def nextDay (dt : Date) : Date :=
  if dt.day < daysInMonth dt.year dt.month then ⟨dt.year, dt.month, dt.day + 1⟩
  else if dt.month < 12 then ⟨dt.year, dt.month + 1, 1⟩
  else ⟨dt.year + 1, 1, 1⟩

/-- The previous day (`- timedelta(days=1)`). -/
def prevDay (dt : Date) : Date :=
  if 1 < dt.day then ⟨dt.year, dt.month, dt.day - 1⟩
  else if 1 < dt.month then ⟨dt.year, dt.month - 1, daysInMonth dt.year (dt.month - 1)⟩
  else ⟨dt.year - 1, 12, 31⟩

/-- `today + timedelta(days=n)` on dates. -/
def addDays (dt : Date) : Nat → Date
  | 0 => dt
  | n + 1 => nextDay (addDays dt n)

/-- `today - timedelta(days=n)` on dates. -/
def subDays (dt : Date) : Nat → Date
  | 0 => dt
  | n + 1 => prevDay (subDays dt n)

/-- Zero-padding to two digits, as `strftime` does for `%m` and `%d`. -/
def pad2 (n : Nat) : String :=
  if n < 10 then "0" ++ toString n else toString n

/-- `strftime("%Y%m%d")` for the four-digit years this system uses. -/
def formatYYYYMMDD (dt : Date) : String :=
  toString dt.year ++ pad2 dt.month ++ pad2 dt.day

/-- The filtering core of `ScheduleManager.search_schedules` (lines
122-140): keep the entries whose deadline's first eight characters lie
between the two bounds under Python string comparison, in store order,
and convert them to result records. -/
def filterSchedulesInRange (schedules : List (String × ScheduleEntry))
    (startDate endDate : String) : List ScheduleSearchResult :=
  (schedules.filter (fun p =>
    strLe startDate (pyTake p.2.deadline 8) &&
    strLe (pyTake p.2.deadline 8) endDate)).map toScheduleResult

/-- `ScheduleManager.search_schedules` (lines 113-140): compute today's
date (taken here as the explicit argument `today`, standing for
`datetime.datetime.now(JST)` truncated to midnight), derive the
date-only bounds `today - before_date` and `today + after_date` as
`YYYYMMDD` strings, and filter. -/
def searchSchedules (schedules : List (String × ScheduleEntry))
    (today : Date) (beforeDate afterDate : Nat) : List ScheduleSearchResult :=
  let startDate := formatYYYYMMDD (subDays today beforeDate)
  let endDate := formatYYYYMMDD (addDays today afterDate)
  filterSchedulesInRange schedules startDate endDate

/-- A raw JSON record of the schedule file; `priority` is optional
because old files may lack it (lines 63-65). -/
structure RawScheduleItem where
  deadline : String
  content : String
  priority : Option String
  created_at : String
  updated_at : String
deriving Repr, DecidableEq

/-- `schedule.model_dump()`. -/
def dumpSchedule (s : ScheduleEntry) : RawScheduleItem :=
  { deadline := s.deadline, content := s.content,
    priority := some s.priority, created_at := s.created_at,
    updated_at := s.updated_at }

/-- `ScheduleManager._save_schedules` (lines 76-82). -/
def saveSchedules (ss : List (String × ScheduleEntry)) :
    List (String × RawScheduleItem) :=
  ss.map (fun p => (p.1, dumpSchedule p.2))

/-- The `ScheduleManager` state: the insertion-ordered dictionary
(modelled as an association list, keys unique in every reachable state
since `add_schedule` keys by fresh UUID) and the persisted file. -/
structure ScheduleStore where
  schedules : List (String × ScheduleEntry)
  file : List (String × RawScheduleItem)
deriving Repr, DecidableEq

/-- In-place content update of the entry at the given id, as done by
`self.schedules[schedule_id].content = content` (lines 103-104). -/
def updateScheduleFirst (id content now : String) :
    List (String × ScheduleEntry) → List (String × ScheduleEntry) × Bool
  | [] => ([], false)
  | (k, s) :: rest =>
    if k = id then
      ((k, { s with content := content, updated_at := now }) :: rest, true)
    else
      let (rest2, b) := updateScheduleFirst id content now rest
      ((k, s) :: rest2, b)

/-- `ScheduleManager.update_schedule` (lines 99-107): if the id is a
key of the dictionary, replace the content, bump `updated_at`, save and
return `True`; otherwise return `False` without touching anything. -/
def updateSchedule (st : ScheduleStore) (id content now : String) :
    ScheduleStore × Bool :=
  match updateScheduleFirst id content now st.schedules with
  | (ss, true) => (⟨ss, saveSchedules ss⟩, true)
  | (_, false) => (st, false)

/-- Removal of the entry at the given id (`del self.schedules[...]`,
line 159). -/
def removeScheduleFirst (id : String) :
    List (String × ScheduleEntry) → List (String × ScheduleEntry) × Bool
  | [] => ([], false)
  | (k, s) :: rest =>
    if k = id then (rest, true)
    else
      let (rest2, b) := removeScheduleFirst id rest
      ((k, s) :: rest2, b)

/-- `ScheduleManager.delete_schedule` (lines 156-162). -/
def deleteSchedule (st : ScheduleStore) (id : String) : ScheduleStore × Bool :=
  let (ss, found) := removeScheduleFirst id st.schedules
  if found then (⟨ss, saveSchedules ss⟩, true) else (st, false)

/-- The outcome of the awaited
`MCPToolset(connection_params=conn).get_tools()` call for one server of
`MCPConnector._load_all_tools` (`mcp_connect.py` line 111): either the
advertised tool names, or one of the exceptions the surrounding `try`
distinguishes (lines 121-126). -/
inductive ProviderOutcome where
  | ok (toolNames : List String)
  | timeout
  | connectionError (msg : String)
  | otherError (msg : String)
deriving Repr, DecidableEq

/-- The exception raised by a failing attempt. -/
inductive ProviderError where
  | timeout
  | connection (msg : String)
  | other (msg : String)
deriving Repr, DecidableEq

/-- A cached toolset handle: the server name and the tool names it
advertises (lines 115-118). -/
structure ToolsetHandle where
  serverName : String
  toolNames : List String
deriving Repr, DecidableEq

/-- The `try` body for one server, as a fallible computation: the
attempt either produces the tool list or raises. -/
def attemptProvider : ProviderOutcome → Except ProviderError (List String)
  | .ok ts => .ok ts
  | .timeout => .error .timeout
  | .connectionError m => .error (.connection m)
  | .otherError m => .error (.other m)

/-- One iteration of the `for name, server in ...` loop (lines
100-126): run the attempt; on success append the handle when the
toolset is non-empty (`if toolset:`); each `except` clause swallows its
exception and leaves the accumulator unchanged. -/
def loadStep (acc : List ToolsetHandle) (p : String × ProviderOutcome) :
    Except ProviderError (List ToolsetHandle) :=
  match attemptProvider p.2 with
  | .ok ts => .ok (if ts.isEmpty then acc else acc ++ [⟨p.1, ts⟩])
  | .error .timeout => .ok acc
  | .error (.connection _) => .ok acc
  | .error (.other _) => .ok acc

/-- The loop of `_load_all_tools`, threading the accumulator; an
uncaught exception would abort the whole batch with `.error`. -/
def loadAllToolsAux (acc : List ToolsetHandle) :
    List (String × ProviderOutcome) → Except ProviderError (List ToolsetHandle)
  | [] => .ok acc
  | p :: rest =>
    match loadStep acc p with
    | .ok acc2 => loadAllToolsAux acc2 rest
    | .error e => .error e

/-- `MCPConnector._load_all_tools` (lines 92-128) over the discovered
servers, each paired with the outcome its connection attempt would
produce. -/
def loadAllTools (servers : List (String × ProviderOutcome)) :
    Except ProviderError (List ToolsetHandle) :=
  loadAllToolsAux [] servers

/-- Modelled from the spec (§4.5 `connect_all`): the parallel list of
(name, handle) for every provider that succeeded — connected and
advertised at least one operation — preserving discovery order among
survivors. -/
def connectAllSpec (servers : List (String × ProviderOutcome)) :
    List ToolsetHandle :=
  servers.filterMap (fun p =>
    match p.2 with
    | .ok ts => if ts.isEmpty then none else some ⟨p.1, ts⟩
    | _ => none)

/-- An outcome that is a failure (raises out of the attempt). -/
def isFailureOutcome : ProviderOutcome → Bool
  | .ok _ => false
  | _ => true

/-! ### Lemmas about the fuzzy-search embedding -/

theorem containsSublist_nil (l : List Char) : containsSublist [] l = true := by
  cases l <;> simp [containsSublist, List.isPrefixOf]

theorem strContains_empty (hay : String) : strContains hay "" = true :=
  containsSublist_nil hay.data

theorem pyLower_empty : pyLower "" = "" := rfl

theorem scoreMemory_empty_query (m : MemoryEntry) :
    scoreMemory "" none m = 10 + m.tags.length * 8 := by
  unfold scoreMemory
  have h : m.tags.filter (fun t => strContains (pyLower t) (pyLower "")) = m.tags :=
    List.filter_eq_self.mpr (fun t _ => by rw [pyLower_empty, strContains_empty])
  simp [pyLower_empty, strContains_empty, h]

theorem mem_searchMemories_iff (memories : List MemoryEntry) (query : String)
    (tags : Option (List String)) (r : MemorySearchResult) :
    r ∈ searchMemories memories query tags ↔ r ∈ searchCandidates memories query tags :=
  (List.perm_insertionSort _ _).mem_iff

theorem length_searchMemories (memories : List MemoryEntry) (query : String)
    (tags : Option (List String)) :
    (searchMemories memories query tags).length = (searchCandidates memories query tags).length :=
  (List.perm_insertionSort _ _).length_eq

theorem mem_searchCandidates_iff (memories : List MemoryEntry) (query : String)
    (tags : Option (List String)) (r : MemorySearchResult) :
    r ∈ searchCandidates memories query tags ↔
      ∃ m ∈ memories, 0 < scoreMemory query tags m ∧ r = mkResult m (scoreMemory query tags m) := by
  simp only [searchCandidates, List.mem_filterMap]
  constructor
  · rintro ⟨m, hm, hr⟩
    by_cases h : 0 < scoreMemory query tags m
    · refine ⟨m, hm, h, ?_⟩
      simp only [h, if_pos] at hr
      exact (Option.some_injective _ hr).symm
    · simp only [h, if_neg, if_false] at hr
      exact absurd hr (by simp)
  · rintro ⟨m, hm, hpos, hr⟩
    exact ⟨m, hm, by simp [hpos, hr]⟩

theorem searchCandidates_empty_query (memories : List MemoryEntry) :
    searchCandidates memories "" none =
      memories.map (fun m => mkResult m (scoreMemory "" none m)) := by
  induction memories with
  | nil => rfl
  | cons m rest ih =>
    have hpos : 0 < scoreMemory "" none m := by
      rw [scoreMemory_empty_query]; omega
    simp only [searchCandidates, List.filterMap_cons, List.map_cons] at ih ⊢
    simp [hpos, ih]

theorem scoreMemory_none_eq (query : String) (m : MemoryEntry) :
    scoreMemory query none m =
      (if strContains (pyLower m.content) (pyLower query) then 10 else 0) +
      (m.tags.filter (fun t => strContains (pyLower t) (pyLower query))).length * 8 := by
  simp [scoreMemory]

/-- The memory of the spec's worked example: content "Started learning
guitar" with tags hobby and learning. -/
def guitarMem : MemoryEntry :=
  { key := "20240115103000", tags := ["hobby", "learning"],
    content := "Started learning guitar. The chord positions are difficult but fun.",
    priority := "mid", created_at := "20240115T103000", updated_at := "20240115T103000" }

/-- A store of six memories whose content is the single character the
query will ask for. -/
def sixMemories : List MemoryEntry :=
  ["20240101000001", "20240101000002", "20240101000003",
   "20240101000004", "20240101000005", "20240101000006"].map (fun k =>
    { key := k, tags := [], content := "x", priority := "mid",
      created_at := "t", updated_at := "t" })

/-- C1 counterexample: on a store of six memories all containing the
query, `search_memories` returns six results (more than the claimed cap
of 5), every one of them scoring `1.0` — far below the claimed minimum
of 20 on the 0-100 scale (200 tenths). -/
theorem C1_counterexample :
    5 < (searchMemories sixMemories "x" none).length ∧
    ∀ r ∈ searchMemories sixMemories "x" none, r.relevance_score < 200 := by
  decide

theorem searchCandidates_eq_filter_map (memories : List MemoryEntry)
    (query : String) (tags : Option (List String)) :
    searchCandidates memories query tags =
      (memories.filter (fun m => decide (0 < scoreMemory query tags m))).map
        (fun m => mkResult m (scoreMemory query tags m)) := by
  induction memories with
  | nil => rfl
  | cons m rest ih =>
    by_cases h : 0 < scoreMemory query tags m
    · simp only [searchCandidates, List.filterMap_cons, List.filter_cons] at ih ⊢
      simp [h, ih]
    · simp only [searchCandidates, List.filterMap_cons, List.filter_cons] at ih ⊢
      simp [h, ih]

/-- C1 (amended): `search_memories` applies no result cap and no
minimum-score threshold: its output is a permutation (the stable
score-descending reordering) of exactly one result record per stored
memory whose score is positive — so in particular at most one result
per stored memory, and every returned result has a strictly positive
relevance score (the score scale being 0.5 per filter-tag hit, 1.0 for
a content hit and 0.8 per tag hit, in tenths here). -/
theorem C1_amended_no_cap_no_threshold (memories : List MemoryEntry)
    (query : String) (tags : Option (List String)) :
    (searchMemories memories query tags).Perm
      ((memories.filter (fun m => decide (0 < scoreMemory query tags m))).map
        (fun m => mkResult m (scoreMemory query tags m))) ∧
    (searchMemories memories query tags).length ≤ memories.length ∧
    ∀ r ∈ searchMemories memories query tags, 0 < r.relevance_score := by
  refine ⟨?_, ?_, ?_⟩
  · rw [← searchCandidates_eq_filter_map]
    exact List.perm_insertionSort _ _
  · rw [length_searchMemories]
    exact List.length_filterMap_le _ _
  · intro r hr
    rw [mem_searchMemories_iff, mem_searchCandidates_iff] at hr
    obtain ⟨m, _, hpos, rfl⟩ := hr
    exact hpos

/-- C2 counterexample: the scorer is an exact (case-insensitive)
substring match, so the misspelled query "gitar" scores 0 against the
stored "Started learning guitar..." memory and `search_memories`
does not return it at all. -/
theorem C2_counterexample :
    searchMemories [guitarMem] "gitar" none = [] ∧
    scoreMemory "gitar" none guitarMem = 0 := by
  decide

/-- C2 (amended): the similarity scorer of `search_memories` is an
exact case-insensitive substring match, not a fuzzy scorer: with no tag
filter a memory scores positively exactly when the lowered query occurs
verbatim in the lowered content or in one of the lowered tags; the
correctly spelled query "guitar" does return the guitar memory (with
score `1.0`), while the misspelled "gitar" scores zero. -/
theorem C2_amended_exact_substring :
    (∀ (query : String) (m : MemoryEntry),
      0 < scoreMemory query none m ↔
        strContains (pyLower m.content) (pyLower query) = true ∨
        ∃ t ∈ m.tags, strContains (pyLower t) (pyLower query) = true) ∧
    searchMemories [guitarMem] "guitar" none = [mkResult guitarMem 10] := by
  constructor
  · intro query m
    rw [scoreMemory_none_eq]
    split_ifs with hc
    · simp [hc]
    · have hmul : (0 : Nat) < (m.tags.filter
          (fun t => strContains (pyLower t) (pyLower query))).length * 8 ↔
          0 < (m.tags.filter (fun t => strContains (pyLower t) (pyLower query))).length := by
        omega
      rw [Nat.zero_add, hmul, List.length_pos, Ne, List.filter_eq_nil_iff]
      simp [hc]
  · decide

/-- C10: with an empty query and no tag filter, `search_memories`
returns every stored memory — the result list has the store's length
and contains the record of each memory — and every result scores at
least `1.0` (10 tenths), because the empty string is a substring of
every content. -/
theorem C10_empty_query_returns_all (memories : List MemoryEntry) :
    (searchMemories memories "" none).length = memories.length ∧
    (∀ r ∈ searchMemories memories "" none, 10 ≤ r.relevance_score) ∧
    ∀ m ∈ memories, mkResult m (scoreMemory "" none m) ∈ searchMemories memories "" none := by
  refine ⟨?_, ?_, ?_⟩
  · rw [length_searchMemories, searchCandidates_empty_query, List.length_map]
  · intro r hr
    rw [mem_searchMemories_iff, mem_searchCandidates_iff] at hr
    obtain ⟨m, _, _, rfl⟩ := hr
    show 10 ≤ scoreMemory "" none m
    rw [scoreMemory_empty_query]
    omega
  · intro m hm
    rw [mem_searchMemories_iff, mem_searchCandidates_iff]
    exact ⟨m, hm, by rw [scoreMemory_empty_query]; omega, rfl⟩

/-! ### Persistence round trip, add, update -/

theorem loadMemoryItem_dumpMemory (m : MemoryEntry) :
    loadMemoryItem (dumpMemory m) = m := rfl

/-- A memory whose single tag lies outside the valid tag enumeration
(the pydantic model accepts any list of strings). -/
def badTagMem : MemoryEntry :=
  { key := "20240116090000", tags := ["not_a_real_tag"], content := "c",
    priority := "high", created_at := "t", updated_at := "t" }

/-- C4 counterexample: saving and re-loading an entry carrying a tag
outside the valid Tag enumeration reproduces the entry verbatim — the
invalid tag is kept, not dropped, and no fallback tag is assigned. -/
theorem C4_counterexample :
    loadMemories (saveMemories [badTagMem]) = [badTagMem] ∧
    badTagMem.tags = ["not_a_real_tag"] ∧
    memoryTagValues.contains "not_a_real_tag" = false := by
  decide

/-- C4 (amended): `save` followed by `load` reproduces exactly the same
entries with all field values — tags are taken as stored, with no
filtering against the Tag enumeration and no fallback tag — and a raw
record whose `priority` field is absent loads with priority "mid". -/
theorem C4_amended_roundtrip :
    (∀ ms : List MemoryEntry, loadMemories (saveMemories ms) = ms) ∧
    (∀ key tags content ca ua, loadMemories
        [{ key := key, tags := tags, content := content, priority := none,
           created_at := ca, updated_at := ua }] =
        [{ key := key, tags := tags, content := content, priority := "mid",
           created_at := ca, updated_at := ua }]) := by
  constructor
  · intro ms
    induction ms with
    | nil => rfl
    | cons m rest ih =>
      simp only [loadMemories, saveMemories, List.map_cons] at ih ⊢
      rw [loadMemoryItem_dumpMemory]
      exact congrArg (m :: ·) ih
  · intro key tags content ca ua
    rfl

/-- The store holding just the guitar memory, as after adding it. -/
def guitarStore : MemoryStore := ⟨[guitarMem], saveMemories [guitarMem]⟩

/-- C5 (code bug): the `add_memory` tool validates format, tags and
priority but never checks whether the key is already present, and
`MemoryManager.add_memory` appends unconditionally; adding the key of
the already-stored guitar memory a second time succeeds and leaves two
entries with the same key in the store — against both the claimed
key-uniqueness invariant and the tool's own docstring, which promises
that an existing key "will be overwritten". -/
theorem C5_duplicate_key_bug :
    (addMemoryTool guitarStore "20240115103000" ["hobby"] "second" "high" "t1").2.success = true ∧
    ((addMemoryTool guitarStore "20240115103000" ["hobby"] "second" "high" "t1").1.memories.filter
      (fun m => decide (m.key = "20240115103000"))).length = 2 := by
  decide

theorem updateFirst_not_found (key : String) (tags : List String)
    (content : String) (priority : Option String) (now : String)
    (ms : List MemoryEntry) (h : ∀ m ∈ ms, m.key ≠ key) :
    updateFirst key tags content priority now ms = (ms, none) := by
  induction ms with
  | nil => rfl
  | cons m rest ih =>
    have hm : ¬ m.key = key := h m (by simp)
    have hrest : ∀ x ∈ rest, x.key ≠ key := fun x hx => h x (by simp [hx])
    simp [updateFirst, hm, ih hrest]

theorem updateScheduleFirst_not_found (id content now : String)
    (ss : List (String × ScheduleEntry)) (h : ∀ p ∈ ss, p.1 ≠ id) :
    updateScheduleFirst id content now ss = (ss, false) := by
  induction ss with
  | nil => rfl
  | cons p rest ih =>
    have hp : ¬ p.1 = id := h p (by simp)
    have hrest : ∀ x ∈ rest, x.1 ≠ id := fun x hx => h x (by simp [hx])
    obtain ⟨k, s⟩ := p
    simp [updateScheduleFirst, hp, ih hrest]

/-- C7: an update against a key that is not in the store — for the
memory store and for the schedule store alike — reports not-found
(`None` / `False`) and leaves both the in-memory collection and the
persisted file exactly as they were; no entry is created. -/
theorem C7_update_miss_unchanged :
    (∀ (st : MemoryStore) (key : String) (tags : List String)
        (content : String) (priority : Option String) (now : String),
      (∀ m ∈ st.memories, m.key ≠ key) →
      updateMemory st key tags content priority now = (st, none)) ∧
    (∀ (st : ScheduleStore) (id content now : String),
      (∀ p ∈ st.schedules, p.1 ≠ id) →
      updateSchedule st id content now = (st, false)) := by
  constructor
  · intro st key tags content priority now h
    rw [updateMemory, updateFirst_not_found key tags content priority now _ h]
  · intro st id content now h
    rw [updateSchedule, updateScheduleFirst_not_found id content now _ h]

/-- A sample schedule entry used by concrete instances. -/
def meetingSched : ScheduleEntry :=
  { deadline := "202510121000", content := "meeting with John",
    priority := "high", created_at := "20251010090000",
    updated_at := "20251010090000" }

/-- The schedule store holding only `meetingSched` under id "sid1". -/
def meetingStore : ScheduleStore :=
  ⟨[("sid1", meetingSched)], saveSchedules [("sid1", meetingSched)]⟩

/-- C7 witness: the miss behaviour at concrete inputs — an unknown
memory key and an unknown schedule id leave the respective stores
untouched. -/
theorem C7_witness :
    updateMemory guitarStore "29990101000000" ["hobby"] "c" none "t" =
      (guitarStore, none) ∧
    updateSchedule meetingStore "sid2" "c" "t" = (meetingStore, false) :=
  ⟨C7_update_miss_unchanged.1 guitarStore "29990101000000" ["hobby"] "c" none "t" (by decide),
   C7_update_miss_unchanged.2 meetingStore "sid2" "c" "t" (by decide)⟩

/-! ### Deletion -/

theorem removeFirst_not_found (key : String) (ms : List MemoryEntry)
    (h : ∀ m ∈ ms, m.key ≠ key) : removeFirst key ms = (ms, false) := by
  induction ms with
  | nil => rfl
  | cons m rest ih =>
    have hm : ¬ m.key = key := h m (by simp)
    have hrest : ∀ x ∈ rest, x.key ≠ key := fun x hx => h x (by simp [hx])
    simp [removeFirst, hm, ih hrest]

theorem removeFirst_found_iff (key : String) (ms : List MemoryEntry) :
    (removeFirst key ms).2 = true ↔ ∃ m ∈ ms, m.key = key := by
  induction ms with
  | nil => simp [removeFirst]
  | cons m rest ih =>
    by_cases hm : m.key = key
    · simp [removeFirst, hm]
    · simp [removeFirst, hm, ih]

theorem removeFirst_no_dup (key : String) (ms : List MemoryEntry)
    (h : (ms.filter (fun m => decide (m.key = key))).length ≤ 1) :
    ∀ m ∈ (removeFirst key ms).1, m.key ≠ key := by
  induction ms with
  | nil => simp [removeFirst]
  | cons m rest ih =>
    by_cases hm : m.key = key
    · simp [List.filter_cons, hm] at h
      simp [removeFirst, hm]
      intro x hx
      exact h x hx
    · have hrest : (rest.filter (fun m => decide (m.key = key))).length ≤ 1 := by
        simp [List.filter_cons, hm] at h
        simpa using h
      simp only [removeFirst, hm, if_neg, if_false]
      intro x hx
      rcases List.mem_cons.mp hx with hx | hx
      · simp [hx, hm]
      · exact ih hrest x hx

theorem removeScheduleFirst_not_found (id : String)
    (ss : List (String × ScheduleEntry)) (h : ∀ p ∈ ss, p.1 ≠ id) :
    removeScheduleFirst id ss = (ss, false) := by
  induction ss with
  | nil => rfl
  | cons p rest ih =>
    have hp : ¬ p.1 = id := h p (by simp)
    have hrest : ∀ x ∈ rest, x.1 ≠ id := fun x hx => h x (by simp [hx])
    obtain ⟨k, s⟩ := p
    simp [removeScheduleFirst, hp, ih hrest]

theorem removeScheduleFirst_found_iff (id : String)
    (ss : List (String × ScheduleEntry)) :
    (removeScheduleFirst id ss).2 = true ↔ ∃ p ∈ ss, p.1 = id := by
  induction ss with
  | nil => simp [removeScheduleFirst]
  | cons p rest ih =>
    obtain ⟨k, s⟩ := p
    by_cases hp : k = id
    · simp [removeScheduleFirst, hp]
    · simp [removeScheduleFirst, hp, ih]

theorem removeScheduleFirst_no_dup (id : String)
    (ss : List (String × ScheduleEntry))
    (h : (ss.filter (fun p => decide (p.1 = id))).length ≤ 1) :
    ∀ p ∈ (removeScheduleFirst id ss).1, p.1 ≠ id := by
  induction ss with
  | nil => simp [removeScheduleFirst]
  | cons p rest ih =>
    obtain ⟨k, s⟩ := p
    by_cases hp : k = id
    · simp [List.filter_cons, hp] at h
      simp [removeScheduleFirst, hp]
      intro a b hx
      exact h a b hx
    · have hrest : (rest.filter (fun p => decide (p.1 = id))).length ≤ 1 := by
        simp [List.filter_cons, hp] at h
        simpa using h
      simp only [removeScheduleFirst, hp, if_neg, if_false]
      intro x hx
      rcases List.mem_cons.mp hx with hx | hx
      · simp [hx, hp]
      · exact ih hrest x hx

/-- Two memories sharing one key, a state reachable through
`add_memory` (which never checks for an existing key). -/
def dupA : MemoryEntry :=
  { key := "20240115103000", tags := ["hobby"], content := "first",
    priority := "mid", created_at := "t", updated_at := "t" }

/-- Second entry with the same key as `dupA`. -/
def dupB : MemoryEntry :=
  { key := "20240115103000", tags := ["habit"], content := "second",
    priority := "low", created_at := "t", updated_at := "t" }

/-- The memory store holding `dupA` and `dupB`. -/
def dupStore : MemoryStore := ⟨[dupA, dupB], saveMemories [dupA, dupB]⟩

/-- C8 counterexample: on a store holding two entries with the same key
(reachable via `add_memory`), deleting that key twice reports found
both times — not found-then-not-found as claimed for every store
state — because each call removes only the first matching entry. -/
theorem C8_counterexample :
    (deleteMemory dupStore "20240115103000").2 = true ∧
    (deleteMemory (deleteMemory dupStore "20240115103000").1 "20240115103000").2 = true := by
  decide

/-- C8 (amended): on every store state in which the key occurs at most
once — in particular every store with pairwise distinct keys, and every
schedule store, whose dictionary cannot repeat keys — delete is
idempotent in the claimed sense: the first delete reports found exactly
when the key was present, the second delete reports not-found, and the
final store holds no entry with that key. -/
theorem C8_amended_idempotent_delete :
    (∀ (st : MemoryStore) (key : String),
      (st.memories.filter (fun m => decide (m.key = key))).length ≤ 1 →
      ((deleteMemory st key).2 = true ↔ ∃ m ∈ st.memories, m.key = key) ∧
      (deleteMemory (deleteMemory st key).1 key).2 = false ∧
      ∀ m ∈ (deleteMemory (deleteMemory st key).1 key).1.memories, m.key ≠ key) ∧
    (∀ (st : ScheduleStore) (id : String),
      (st.schedules.filter (fun p => decide (p.1 = id))).length ≤ 1 →
      ((deleteSchedule st id).2 = true ↔ ∃ p ∈ st.schedules, p.1 = id) ∧
      (deleteSchedule (deleteSchedule st id).1 id).2 = false ∧
      ∀ p ∈ (deleteSchedule (deleteSchedule st id).1 id).1.schedules, p.1 ≠ id) := by
  constructor
  · intro st key h
    rcases hr : removeFirst key st.memories with ⟨ms, found⟩
    have hfound : found = true ↔ ∃ m ∈ st.memories, m.key = key := by
      rw [← removeFirst_found_iff key st.memories, hr]
    cases found with
    | false =>
      have hnone : ∀ m ∈ st.memories, m.key ≠ key := by
        intro m hm hk
        exact absurd (hfound.mpr ⟨m, hm, hk⟩) (by simp)
      have hd : deleteMemory st key = (st, false) := by
        simp [deleteMemory, hr]
      refine ⟨by rw [hd]; simpa using hfound, ?_, ?_⟩
      · rw [hd]
        simp only
        rw [hd]
      · rw [hd]
        simp only
        rw [hd]
        exact hnone
    | true =>
      have hnodup : ∀ m ∈ ms, m.key ≠ key := by
        have := removeFirst_no_dup key st.memories h
        rwa [hr] at this
      have hd : deleteMemory st key = (⟨ms, saveMemories ms⟩, true) := by
        simp [deleteMemory, hr]
      have hr2 : removeFirst key ms = (ms, false) :=
        removeFirst_not_found key ms hnodup
      have hd2 : deleteMemory ⟨ms, saveMemories ms⟩ key = (⟨ms, saveMemories ms⟩, false) := by
        simp [deleteMemory, hr2]
      refine ⟨by rw [hd]; simpa using hfound, ?_, ?_⟩
      · rw [hd]
        simp only
        rw [hd2]
      · rw [hd]
        simp only
        rw [hd2]
        exact hnodup
  · intro st id h
    rcases hr : removeScheduleFirst id st.schedules with ⟨ss, found⟩
    have hfound : found = true ↔ ∃ p ∈ st.schedules, p.1 = id := by
      rw [← removeScheduleFirst_found_iff id st.schedules, hr]
    cases found with
    | false =>
      have hnone : ∀ p ∈ st.schedules, p.1 ≠ id := by
        intro p hp hk
        exact absurd (hfound.mpr ⟨p, hp, hk⟩) (by simp)
      have hd : deleteSchedule st id = (st, false) := by
        simp [deleteSchedule, hr]
      refine ⟨by rw [hd]; simpa using hfound, ?_, ?_⟩
      · rw [hd]
        simp only
        rw [hd]
      · rw [hd]
        simp only
        rw [hd]
        exact hnone
    | true =>
      have hnodup : ∀ p ∈ ss, p.1 ≠ id := by
        have := removeScheduleFirst_no_dup id st.schedules h
        rwa [hr] at this
      have hd : deleteSchedule st id = (⟨ss, saveSchedules ss⟩, true) := by
        simp [deleteSchedule, hr]
      have hr2 : removeScheduleFirst id ss = (ss, false) :=
        removeScheduleFirst_not_found id ss hnodup
      have hd2 : deleteSchedule ⟨ss, saveSchedules ss⟩ id = (⟨ss, saveSchedules ss⟩, false) := by
        simp [deleteSchedule, hr2]
      refine ⟨by rw [hd]; simpa using hfound, ?_, ?_⟩
      · rw [hd]
        simp only
        rw [hd2]
      · rw [hd]
        simp only
        rw [hd2]
        exact hnodup

/-- A memory store with two distinct keys for the witness. -/
def distinctStore : MemoryStore :=
  ⟨[guitarMem, badTagMem], saveMemories [guitarMem, badTagMem]⟩

/-- C8 witness: the amended delete behaviour at concrete stores with
unique keys — found then not-found and no surviving entry. -/
theorem C8_witness :
    (((deleteMemory distinctStore "20240115103000").2 = true ↔
        ∃ m ∈ distinctStore.memories, m.key = "20240115103000") ∧
      (deleteMemory (deleteMemory distinctStore "20240115103000").1 "20240115103000").2 = false ∧
      ∀ m ∈ (deleteMemory (deleteMemory distinctStore "20240115103000").1
        "20240115103000").1.memories, m.key ≠ "20240115103000") ∧
    (((deleteSchedule meetingStore "sid1").2 = true ↔
        ∃ p ∈ meetingStore.schedules, p.1 = "sid1") ∧
      (deleteSchedule (deleteSchedule meetingStore "sid1").1 "sid1").2 = false ∧
      ∀ p ∈ (deleteSchedule (deleteSchedule meetingStore "sid1").1
        "sid1").1.schedules, p.1 ≠ "sid1") :=
  ⟨C8_amended_idempotent_delete.1 distinctStore "20240115103000" (by decide),
   C8_amended_idempotent_delete.2 meetingStore "sid1" (by decide)⟩

/-! ### Capability connector -/

theorem loadAllToolsAux_spec (servers : List (String × ProviderOutcome))
    (acc : List ToolsetHandle) :
    loadAllToolsAux acc servers = .ok (acc ++ connectAllSpec servers) := by
  induction servers generalizing acc with
  | nil => simp [loadAllToolsAux, connectAllSpec]
  | cons p rest ih =>
    obtain ⟨n, out⟩ := p
    cases out with
    | ok ts =>
      by_cases hts : ts.isEmpty
      · simp [loadAllToolsAux, loadStep, attemptProvider, connectAllSpec,
          List.filterMap_cons, List.isEmpty_iff.mp hts, ih]
      · have hne : ¬ ts = [] := by
          intro h0
          exact hts (by simp [h0])
        simp [loadAllToolsAux, loadStep, attemptProvider, connectAllSpec,
          List.filterMap_cons, hts, hne, ih]
    | timeout =>
      simp [loadAllToolsAux, loadStep, attemptProvider, connectAllSpec, ih]
    | connectionError m =>
      simp [loadAllToolsAux, loadStep, attemptProvider, connectAllSpec, ih]
    | otherError m =>
      simp [loadAllToolsAux, loadStep, attemptProvider, connectAllSpec, ih]

/-- C3: `_load_all_tools` never raises — for every provider map it
returns `ok` with exactly the toolsets of the providers whose attempt
succeeded (and advertised at least one tool), in discovery order — and
each failing provider (timeout, connection error, or any other
exception) is simply omitted without affecting the others: removing a
failing provider from the batch leaves the result unchanged. -/
theorem C3_connector_isolates_failures :
    (∀ servers : List (String × ProviderOutcome),
      loadAllTools servers = .ok (connectAllSpec servers)) ∧
    ∀ (pre post : List (String × ProviderOutcome)) (n : String)
      (out : ProviderOutcome), isFailureOutcome out = true →
      loadAllTools (pre ++ (n, out) :: post) = loadAllTools (pre ++ post) := by
  have hmain : ∀ servers, loadAllTools servers = .ok (connectAllSpec servers) :=
    fun servers => loadAllToolsAux_spec servers []
  refine ⟨hmain, ?_⟩
  intro pre post n out hfail
  rw [hmain, hmain]
  have hskip : connectAllSpec (pre ++ (n, out) :: post) = connectAllSpec (pre ++ post) := by
    simp only [connectAllSpec, List.filterMap_append, List.filterMap_cons]
    cases out with
    | ok ts => simp [isFailureOutcome] at hfail
    | timeout => rfl
    | connectionError m => rfl
    | otherError m => rfl
  rw [hskip]

/-- C3 witness: a three-provider batch whose middle provider times out
loads exactly the toolsets of the two healthy providers. -/
theorem C3_witness :
    isFailureOutcome ProviderOutcome.timeout = true ∧
    loadAllTools [("memory", .ok ["add_memory"]), ("broken", .timeout),
        ("schedule", .ok ["add_schedule"])] =
      loadAllTools [("memory", .ok ["add_memory"]), ("schedule", .ok ["add_schedule"])] :=
  ⟨rfl, C3_connector_isolates_failures.2 [("memory", .ok ["add_memory"])]
    [("schedule", .ok ["add_schedule"])] "broken" .timeout rfl⟩

/-! ### Schedule range search -/

/-- Schedule due the day before the reference date 2025-10-12. -/
def yesterdaySched : ScheduleEntry :=
  ⟨"202510111000", "yesterday", "mid", "t", "t"⟩

/-- Schedule due on the reference date. -/
def todaySched : ScheduleEntry :=
  ⟨"202510121000", "today", "mid", "t", "t"⟩

/-- Schedule due the day after the reference date. -/
def tomorrowSched : ScheduleEntry :=
  ⟨"202510131000", "tomorrow", "mid", "t", "t"⟩

/-- Schedule due ten days after the reference date. -/
def tenDaysSched : ScheduleEntry :=
  ⟨"202510221000", "ten days out", "mid", "t", "t"⟩

/-- C6: `search_schedules` derives the date-only bounds
`today - before_date` and `today + after_date` and returns exactly the
entries whose deadline's eight-character date prefix lies within the
bounds inclusive, under lexical string comparison; in particular, with
`before_date = 1` and `after_date = 1` from 2025-10-12, entries due
yesterday, today, tomorrow and ten days out yield exactly the first
three, in store order. -/
theorem C6_schedule_range_search :
    (∀ (schedules : List (String × ScheduleEntry)) (today : Date)
        (beforeDate afterDate : Nat) (r : ScheduleSearchResult),
      r ∈ searchSchedules schedules today beforeDate afterDate ↔
        ∃ p ∈ schedules, toScheduleResult p = r ∧
          strLe (formatYYYYMMDD (subDays today beforeDate)) (pyTake p.2.deadline 8) = true ∧
          strLe (pyTake p.2.deadline 8) (formatYYYYMMDD (addDays today afterDate)) = true) ∧
    (searchSchedules
        [("s1", yesterdaySched), ("s2", todaySched),
         ("s3", tomorrowSched), ("s4", tenDaysSched)]
        ⟨2025, 10, 12⟩ 1 1).map ScheduleSearchResult.schedule_id = ["s1", "s2", "s3"] := by
  constructor
  · intro schedules today beforeDate afterDate r
    simp only [searchSchedules, filterSchedulesInRange, List.mem_map,
      List.mem_filter, Bool.and_eq_true]
    constructor
    · rintro ⟨p, ⟨hp, h1, h2⟩, hr⟩
      exact ⟨p, hp, hr, h1, h2⟩
    · rintro ⟨p, hp, hr, h1, h2⟩
      exact ⟨p, ⟨hp, h1, h2⟩, hr⟩
  · decide

/-! ### Statistics: order properties of the key sort -/

theorem charListLe_refl (l : List Char) : charListLe l l = true := by
  induction l with
  | nil => rfl
  | cons c rest ih => simp [charListLe, ih]

theorem charListLe_total (as bs : List Char) :
    charListLe as bs = true ∨ charListLe bs as = true := by
  induction as generalizing bs with
  | nil => left; rfl
  | cons a as ih =>
    cases bs with
    | nil => right; rfl
    | cons b bs =>
      by_cases hab : a = b
      · subst hab
        rcases ih bs with h | h
        · left; simp [charListLe, h]
        · right; simp [charListLe, h]
      · rcases lt_or_gt_of_ne hab with h | h
        · left; simp [charListLe, hab, h]
        · right; simp [charListLe, Ne.symm hab, h]

theorem charListLe_trans (as bs cs : List Char)
    (h1 : charListLe as bs = true) (h2 : charListLe bs cs = true) :
    charListLe as cs = true := by
  induction as generalizing bs cs with
  | nil => rfl
  | cons a as ih =>
    cases bs with
    | nil => simp [charListLe] at h1
    | cons b bs =>
      cases cs with
      | nil => simp [charListLe] at h2
      | cons c cs =>
        by_cases hab : a = b <;> by_cases hbc : b = c
        · subst hab; subst hbc
          simp only [charListLe, if_pos rfl] at h1 h2 ⊢
          exact ih bs cs h1 h2
        · subst hab
          simp only [charListLe, if_pos rfl] at h1
          simp only [charListLe, hbc, if_neg, if_false] at h2 ⊢
          simpa using of_decide_eq_true h2
        · subst hbc
          simp only [charListLe, if_pos rfl] at h2
          simp only [charListLe, hab, if_neg, if_false] at h1 ⊢
          simpa using of_decide_eq_true h1
        · have hlt1 : a < b := by
            simp only [charListLe, hab, if_neg, if_false] at h1
            exact of_decide_eq_true h1
          have hlt2 : b < c := by
            simp only [charListLe, hbc, if_neg, if_false] at h2
            exact of_decide_eq_true h2
          have hac : a < c := lt_trans hlt1 hlt2
          simp [charListLe, ne_of_lt hac, hac]

instance : IsTotal String strLeP :=
  ⟨fun a b => charListLe_total a.data b.data⟩

instance : IsTrans String strLeP :=
  ⟨fun a b c => charListLe_trans a.data b.data c.data⟩

theorem strLeP_refl (a : String) : strLeP a a := charListLe_refl a.data

theorem sorted_head_le {l : List String} (hs : l.Sorted strLeP) {e : String}
    (he : l.head? = some e) : ∀ k ∈ l, strLeP e k := by
  cases l with
  | nil => simp at he
  | cons a t =>
    obtain rfl : a = e := by simpa using he
    intro k hk
    rcases List.mem_cons.mp hk with rfl | hk
    · exact strLeP_refl k
    · exact (List.sorted_cons.mp hs).1 k hk

theorem sorted_le_getLast {l : List String} (hs : l.Sorted strLeP) {x : String}
    (hx : l.getLast? = some x) : ∀ k ∈ l, strLeP k x := by
  induction l with
  | nil => simp at hx
  | cons a t ih =>
    cases t with
    | nil =>
      obtain rfl : a = x := by simpa using hx
      intro k hk
      obtain rfl := List.mem_singleton.mp hk
      exact strLeP_refl k
    | cons b t2 =>
      have hx2 : (b :: t2).getLast? = some x := by
        rwa [List.getLast?_cons_cons] at hx
      have hs2 : (b :: t2).Sorted strLeP := (List.sorted_cons.mp hs).2
      have hmem : x ∈ b :: t2 := List.mem_of_mem_getLast? hx2
      intro k hk
      rcases List.mem_cons.mp hk with rfl | hk
      · exact (List.sorted_cons.mp hs).1 x hmem
      · exact ih hs2 hx2 k hk

/-- A store mixing a malformed key "zzz" with a well-formed 14-digit
key. -/
def mixedKeyStore : List MemoryEntry :=
  [{ key := "20240101000000", tags := ["hobby"], content := "conforming",
     priority := "mid", created_at := "t", updated_at := "t" },
   { key := "zzz", tags := ["habit"], content := "stray key",
     priority := "mid", created_at := "t", updated_at := "t" }]

/-- C9 counterexample: `get_memory_stats` sorts all keys with no format
filtering, so on a store holding the malformed key "zzz" next to a
conforming 14-digit key, the reported latest key is "zzz", which does
not match the 14-digit numeric key format the claim says the range is
restricted to. -/
theorem C9_counterexample :
    (getMemoryStats mixedKeyStore).latest = some "zzz" ∧
    isValidMemoryKey "zzz" = false ∧
    (getMemoryStats mixedKeyStore).total_memories = 2 := by
  decide

/-- C9 (amended): `get_memory_stats` reports the total over all
entries, and computes the lexical earliest/latest over ALL keys — with
no restriction to the 14-digit numeric key format: for a non-empty
store, `earliest` and `latest` are keys of the store and bound every
key (malformed ones included) under Python string comparison. -/
theorem C9_amended_stats (ms : List MemoryEntry) (hne : ms ≠ []) :
    (getMemoryStats ms).total_memories = ms.length ∧
    ∃ e l, (getMemoryStats ms).earliest = some e ∧
      (getMemoryStats ms).latest = some l ∧
      e ∈ ms.map MemoryEntry.key ∧ l ∈ ms.map MemoryEntry.key ∧
      ∀ k ∈ ms.map MemoryEntry.key, strLeP e k ∧ strLeP k l := by
  refine ⟨rfl, ?_⟩
  have hperm : (sortedKeys ms).Perm (ms.map MemoryEntry.key) :=
    List.perm_insertionSort _ _
  have hsorted : (sortedKeys ms).Sorted strLeP :=
    List.sorted_insertionSort _ _
  have hne2 : sortedKeys ms ≠ [] := by
    intro h0
    have : ms.map MemoryEntry.key = [] := (h0 ▸ hperm).symm.eq_nil
    exact hne (List.map_eq_nil_iff.mp this)
  obtain ⟨e, t, ht⟩ : ∃ e t, sortedKeys ms = e :: t := by
    cases h : sortedKeys ms with
    | nil => exact absurd h hne2
    | cons e t => exact ⟨e, t, rfl⟩
  have he : (sortedKeys ms).head? = some e := by rw [ht]; rfl
  obtain ⟨l, hl⟩ : ∃ l, (sortedKeys ms).getLast? = some l := by
    rw [ht]
    exact ⟨(e :: t).getLast (by simp), List.getLast?_eq_getLast _ _⟩
  refine ⟨e, l, he, hl, ?_, ?_, ?_⟩
  · exact hperm.mem_iff.mp (by rw [ht]; exact List.mem_cons_self e t)
  · exact hperm.mem_iff.mp (List.mem_of_mem_getLast? hl)
  · intro k hk
    have hk2 : k ∈ sortedKeys ms := hperm.mem_iff.mpr hk
    exact ⟨sorted_head_le hsorted he k hk2, sorted_le_getLast hsorted hl k hk2⟩

/-- C9 witness: the amended statistics property evaluated on the
two-entry store with the stray key. -/
theorem C9_witness :
    mixedKeyStore ≠ [] ∧
    ((getMemoryStats mixedKeyStore).total_memories = mixedKeyStore.length ∧
      ∃ e l, (getMemoryStats mixedKeyStore).earliest = some e ∧
        (getMemoryStats mixedKeyStore).latest = some l ∧
        e ∈ mixedKeyStore.map MemoryEntry.key ∧
        l ∈ mixedKeyStore.map MemoryEntry.key ∧
        ∀ k ∈ mixedKeyStore.map MemoryEntry.key, strLeP e k ∧ strLeP k l) :=
  ⟨by decide, C9_amended_stats mixedKeyStore (by decide)⟩

/-! ### Witnesses for the remaining claim theorems -/

/-- The first entry of `sixMemories`. -/
def sixFirst : MemoryEntry :=
  { key := "20240101000001", tags := [], content := "x",
    priority := "mid", created_at := "t", updated_at := "t" }

/-- C1 witness: the amended search bound evaluated on the six-memory
store; the first entry's result is a member and scores positively. -/
theorem C1_witness :
    (searchMemories sixMemories "x" none).Perm
      ((sixMemories.filter (fun m => decide (0 < scoreMemory "x" none m))).map
        (fun m => mkResult m (scoreMemory "x" none m))) ∧
    0 < (mkResult sixFirst 10).relevance_score :=
  ⟨(C1_amended_no_cap_no_threshold sixMemories "x" none).1,
   (C1_amended_no_cap_no_threshold sixMemories "x" none).2.2 _ (by decide)⟩

/-- C2 witness: the exact-substring characterization applied to the
guitar memory and the correctly spelled query. -/
theorem C2_witness : 0 < scoreMemory "guitar" none guitarMem :=
  (C2_amended_exact_substring.1 "guitar" guitarMem).mpr (Or.inl (by decide))

/-- C6 witness: the membership characterization applied to the
yesterday entry at the concrete reference date. -/
theorem C6_witness :
    toScheduleResult ("s1", yesterdaySched) ∈ searchSchedules
      [("s1", yesterdaySched), ("s2", todaySched),
       ("s3", tomorrowSched), ("s4", tenDaysSched)] ⟨2025, 10, 12⟩ 1 1 :=
  (C6_schedule_range_search.1 _ _ _ _ _).mpr
    ⟨("s1", yesterdaySched), by decide, rfl, by decide, by decide⟩

/-- C10 witness: the empty query on the singleton guitar store returns
its one memory. -/
theorem C10_witness :
    (searchMemories [guitarMem] "" none).length = 1 ∧
    mkResult guitarMem (scoreMemory "" none guitarMem) ∈
      searchMemories [guitarMem] "" none :=
  ⟨(C10_empty_query_returns_all [guitarMem]).1,
   (C10_empty_query_returns_all [guitarMem]).2.2 guitarMem (by decide)⟩

end Welld
